import Mathlib

/-!
Verification of the Execution & Session Core of the `ubuntu-control-panel`
backend, as a shallow embedding in Lean 4.

The embedding translates, from the Python source:
  * `is_safe_path` and the path normalization it relies on
    (`backend/app/routers_fixed/files.py`),
  * the crontab surgery of `schedule_script` / `unschedule_script` /
    `list_scheduled_scripts` (`backend/app/routers/python_deployer.py`),
  * the output/timeout handling of `run_script` and the manifest write of
    `install_requirements` (same file),
  * the session listing, resize-frame handling and session-id parsing of
    `backend/app/routers/terminal.py`.

Strings are modelled as `List Char`; Python string operations (`split`,
`splitlines`, `join`, `startswith`, `in`, `re.search` for the two concrete
patterns the code uses) are given executable structural definitions.
-/

namespace ControlPanel

/-! ### Generic character-list utilities (models of Python string primitives) -/

/-- Model of Python `str.startswith`: `isPrefixList pat l` is true iff `pat`
is a prefix of `l`. -/
def isPrefixList : List Char → List Char → Bool
  | [], _ => true
  | _ :: _, [] => false
  | a :: pat, b :: l => a == b && isPrefixList pat l

/-- Index of the first occurrence of `pat` as a contiguous substring of `l`
(`none` if it does not occur). Models the search performed by Python `in`
and by `re.search` for a literal prefix. -/
def firstPosAux (pat : List Char) : List Char → Option Nat
  | [] => if isPrefixList pat [] then some 0 else none
  | c :: rest =>
    if isPrefixList pat (c :: rest) then some 0
    else (firstPosAux pat rest).map (· + 1)

/-- Index of the last occurrence of `pat` as a contiguous substring of `l`. -/
def lastPosAux (pat : List Char) : List Char → Option Nat
  | [] => if isPrefixList pat [] then some 0 else none
  | c :: rest =>
    match lastPosAux pat rest with
    | some k => some (k + 1)
    | none => if isPrefixList pat (c :: rest) then some 0 else none

/-- Model of Python `pat in l` (substring containment). -/
def containsSub (pat l : List Char) : Bool :=
  (firstPosAux pat l).isSome

/-- Model of Python `str.split(sep)` with an explicit one-character
separator: non-collapsing, `"" → [""]`. -/
def pySplitSep (sep : Char) : List Char → List (List Char)
  | [] => [[]]
  | c :: rest =>
    if c == sep then [] :: pySplitSep sep rest
    else
      match pySplitSep sep rest with
      | [] => [[c]]
      | w :: ws => (c :: w) :: ws

/-- Model of Python `str.splitlines()` for `'\n'`-separated text: a trailing
newline does not produce a final empty line, and `"" → []`. -/
def splitLines : List Char → List (List Char)
  | [] => []
  | c :: rest =>
    if c == '\n' then [] :: splitLines rest
    else
      match splitLines rest with
      | [] => [[c]]
      | l :: ls => (c :: l) :: ls

/-- Model of Python `sep.join(parts)` for a one-character separator. -/
def joinSep (sep : Char) : List (List Char) → List Char
  | [] => []
  | [w] => w
  | w :: ws => w ++ sep :: joinSep sep ws

/-- The six ASCII characters Python `str.split()` (no argument) treats as
whitespace. -/
def isSpaceChar (c : Char) : Bool :=
  c == ' ' || c == '\t' || c == '\n' || c == '\r' ||
  c == Char.ofNat 11 || c == Char.ofNat 12

/-- Accumulator worker for `pySplit`. -/
def pyWordsAux : List Char → List Char → List (List Char)
  | [], acc => if acc.isEmpty then [] else [acc.reverse]
  | c :: rest, acc =>
    if isSpaceChar c then
      if acc.isEmpty then pyWordsAux rest [] else acc.reverse :: pyWordsAux rest []
    else pyWordsAux rest (c :: acc)

/-- Model of Python `str.split()` with no argument: splits on runs of
whitespace, discarding empty fields. -/
def pySplit (l : List Char) : List (List Char) :=
  pyWordsAux l []

/-! ### Sandbox (`routers_fixed/files.py`) -/

/-- Number of leading slashes `posixpath.normpath` preserves: two slashes are
kept verbatim, one or three-or-more collapse to one. -/
def leadSlashes (l : List Char) : Nat :=
  if isPrefixList ['/', '/', '/'] l then 1
  else if isPrefixList ['/', '/'] l then 2
  else if isPrefixList ['/'] l then 1
  else 0

/-- Component processing of `posixpath.normpath` on an absolute path: empty
and `.` components vanish, `..` pops the previous component (or vanishes at
the root). -/
def normCompsAux : List (List Char) → List (List Char) → List (List Char)
  | [], acc => acc.reverse
  | s :: rest, acc =>
    if s = [] ∨ s = ['.'] then normCompsAux rest acc
    else if s = ['.', '.'] then normCompsAux rest acc.tail
    else normCompsAux rest (s :: acc)

/-- Model of `os.path.abspath` on an already-absolute POSIX path (the two
call-site arguments of `is_safe_path` are always absolute, being built by
`os.path.join` from `BASE_DIR = "/home"`).  `abspath` does not consult the
filesystem: symbolic links are not resolved. -/
def abspath (l : List Char) : List Char :=
  List.replicate (leadSlashes l) '/' ++
    joinSep '/' (normCompsAux (pySplitSep '/' l) [])

/-- Embedding of `is_safe_path(path, user_dir)` from
`routers_fixed/files.py`: `os.path.abspath` on both arguments, then Python
`str.startswith` — a plain string-prefix comparison. -/
def is_safe_path (path user_dir : List Char) : Bool :=
  isPrefixList (abspath user_dir) (abspath path)

/-- The check described by the spec's words, for comparison with
`is_safe_path`: accept exactly when the canonical path equals the root or
has the root as a proper ancestor by path-segment comparison (i.e. the root
followed by a `/` is a prefix). -/
def is_safe_path_spec (path user_dir : List Char) : Bool :=
  abspath path == abspath user_dir ||
    isPrefixList (abspath user_dir ++ ['/']) (abspath path)

/-! ### ScheduleRegistry (`routers/python_deployer.py`) -/

/-- The idempotency marker `f"# {name} - managed by control-panel"` that
`schedule_script` appends and that `unschedule_script` and
`list_scheduled_scripts` match against. -/
def markerChars (name : List Char) : List Char :=
  "# ".toList ++ name ++ " - managed by control-panel".toList

/-- The crontab line `schedule_script` generates for an entry, without its
trailing newline: `f"{cron_expression} {wrapper_path} # {name} - managed by
control-panel"`. -/
def entryBody (name cron wrapper : List Char) : List Char :=
  cron ++ ' ' :: wrapper ++ ' ' :: markerChars name

/-- Embedding of the crontab surgery of `schedule_script`: split the current
crontab into lines, drop every line containing the marker for `name`, append
the newly generated entry (which carries a trailing `'\n'`), and join with
`'\n'`.  The result is the text installed as the new crontab. -/
def schedule_script (current name cron wrapper : List Char) : List Char :=
  joinSep '\n'
    ((splitLines current).filter (fun l => !containsSub (markerChars name) l) ++
      [entryBody name cron wrapper ++ ['\n']])

/-- Outcome of `unschedule_script`: either the text installed as the new
crontab, or the 404 "not found" rejection. -/
inductive UnschedResult
  | notFound
  | ok (table : List Char)
  deriving DecidableEq, Repr

/-- Embedding of the crontab surgery of `unschedule_script`: if some line of
the current crontab contains the marker for `name`, install the table with
all such lines removed; otherwise report 404 without writing anything. -/
def unschedule_script (current name : List Char) : UnschedResult :=
  if (splitLines current).any (fun l => containsSub (markerChars name) l) then
    .ok (joinSep '\n'
      ((splitLines current).filter (fun l => !containsSub (markerChars name) l)))
  else .notFound

/-- The crontab content after a call to `unschedule_script`: unchanged on
the not-found path (the install step is never reached there). -/
def unschedule_effect (current name : List Char) : List Char :=
  match unschedule_script current name with
  | .ok t => t
  | .notFound => current

/-- Number of lines of a crontab text that contain the marker for `name`. -/
def countMarked (name current : List Char) : Nat :=
  ((splitLines current).filter (fun l => containsSub (markerChars name) l)).length

/-! Wrapper-path derivation used by `schedule_script`:
`wrapper_path = os.path.join(os.path.dirname(p),
os.path.splitext(os.path.basename(p))[0] + "_wrapper.sh")`. -/

/-- Model of `os.path.dirname` on a POSIX path. -/
def dirnameOf (l : List Char) : List Char :=
  match lastPosAux ['/'] l with
  | none => []
  | some i =>
    let h := l.take (i + 1)
    if h.all (fun c => c == '/') then h
    else (h.reverse.dropWhile (fun c => c == '/')).reverse

/-- Model of `os.path.basename` on a POSIX path. -/
def basenameOf (l : List Char) : List Char :=
  match lastPosAux ['/'] l with
  | none => l
  | some i => l.drop (i + 1)

/-- Model of the stem `os.path.splitext(basename)[0]`: cut at the last dot,
unless every character before it (within the basename) is itself a dot. -/
def stemOf (base : List Char) : List Char :=
  match lastPosAux ['.'] base with
  | none => base
  | some i =>
    if (base.take i).all (fun c => c == '.') then base
    else base.take i

/-- The wrapper launcher path `schedule_script` derives from the script
path. -/
def wrapper_path_of (full_script_path : List Char) : List Char :=
  dirnameOf full_script_path ++ '/' ::
    (stemOf (basenameOf full_script_path) ++ "_wrapper.sh".toList)

/-- `schedule_script` as invoked by the route: the wrapper path is derived
from the script path. -/
def schedule_script_for (current name cron full_script_path : List Char) :
    List Char :=
  schedule_script current name cron (wrapper_path_of full_script_path)

/-! Listing (`list_scheduled_scripts`). -/

/-- One record of the `list_scheduled` response. -/
structure SchedEntry where
  name : List Char
  cron_expression : List Char
  script_path : List Char
  deriving DecidableEq, Repr

/-- The literal tail `" - managed by control-panel"` of the marker. -/
def markerTail : List Char := " - managed by control-panel".toList

/-- Model of `re.search(r'# (.*) - managed by control-panel', line)` on a
newline-free line (every line produced by `splitLines` is newline-free, so
the `.`-excludes-newline subtlety of the regex never bites): the match, if
any, starts at the first `"# "` and its greedy group extends to the last
occurrence of the tail; the captured group is returned. -/
def searchMarker (line : List Char) : Option (List Char) :=
  match firstPosAux "# ".toList line, lastPosAux markerTail line with
  | some i, some j =>
    if i + 2 ≤ j then some ((line.drop (i + 2)).take (j - (i + 2))) else none
  | _, _ => none

/-- The fallback the listing stores when no `python <path>.py` text occurs
in the line. -/
def unknownChars : List Char := "Unknown".toList

/-- Model of the `script_path` extraction
`re.search(r'python (.*\.py)', line)` on a newline-free line, with the
`"Unknown"` fallback: the match, if any, starts at the first `"python "`
and the greedy group extends through the last `".py"`. -/
def scriptPathOf (line : List Char) : List Char :=
  match firstPosAux "python ".toList line, lastPosAux ".py".toList line with
  | some i, some j =>
    if i + 7 ≤ j then (line.drop (i + 7)).take (j + 3 - (i + 7)) else unknownChars
  | _, _ => unknownChars

/-- Parse of one crontab line by `list_scheduled_scripts`: lines without the
marker yield no record; marker-tagged lines yield the captured name, the
first five whitespace-separated fields re-joined with single spaces, and the
extracted script path. -/
def parseCronLine (line : List Char) : Option SchedEntry :=
  match searchMarker line with
  | none => none
  | some nm =>
    some ⟨nm, joinSep ' ' ((pySplit line).take 5), scriptPathOf line⟩

/-- Embedding of `list_scheduled_scripts`: every line of the crontab is
parsed; lines without the marker are skipped. -/
def list_scheduled_scripts (current : List Char) : List SchedEntry :=
  (splitLines current).filterMap parseCronLine

/-! ### SessionManager (`routers/terminal.py`) -/

/-- One entry of the `active_sessions` registry, as created by
`terminal_websocket`: the session id is `f"{username}_{id(websocket)}"`,
i.e. the owner's name, an underscore, and a per-connection nonce (the
decimal digits of a CPython object id). -/
structure Sess where
  owner : List Char
  nonce : List Char
  deriving DecidableEq, Repr

/-- The registry key of a session. -/
def sessId (s : Sess) : List Char :=
  s.owner ++ '_' :: s.nonce

/-- Embedding of `list_terminal_sessions`: an admin requester receives every
registry key; an ordinary requester receives the keys that start with
`f"{username}_"`. -/
def list_terminal_sessions (registry : List Sess) (requester : List Char)
    (isAdmin : Bool) : List (List Char) :=
  if isAdmin then registry.map sessId
  else (registry.map sessId).filter
    (fun sid => isPrefixList (requester ++ ['_']) sid)

/-- The reserved resize-control prefix `"__RESIZE:"`. -/
def resizeChars : List Char := "__RESIZE:".toList

/-- Embedding of one iteration of `write_to_process`: `some bytes` means the
bytes are written to the shell's stdin, `none` means the frame is consumed
as a no-op.  A frame starting with `"__RESIZE:"` is consumed only when
`message.split(":")` has exactly three parts (the 3-way unpack succeeds and
the loop `continue`s); otherwise the unpack raises, the exception is
swallowed, and control falls through to `process.stdin.write(message)`. -/
def write_to_process (message : List Char) : Option (List Char) :=
  if isPrefixList resizeChars message then
    if (pySplitSep ':' message).length = 3 then none else some message
  else some message

/-- Embedding of the owner extraction of `kill_terminal_session`:
`session_id.split("_")[0]`, with `none` standing for the `IndexError`
branch that answers 400 "Invalid session ID format". -/
def kill_session_owner (session_id : List Char) : Option (List Char) :=
  (pySplitSep '_' session_id).head?

/-! ### JobRunner (`run_script` and `install_requirements` in
`routers/python_deployer.py`) -/

/-- Abstraction of the spawned script process: how many seconds it takes to
finish, and the exit code and streams it produces if allowed to finish. -/
structure ScriptRun where
  finish : Nat
  rc : Int
  out : List Char
  err : List Char
  deriving DecidableEq, Repr

/-- Outcome of `run_script`: the 408 timeout rejection, or the JSON response
carrying the message, the true exit code and both captured streams. -/
inductive RunOutcome
  | timedOut (secs : Nat)
  | done (message : List Char) (rc : Int) (out err : List Char)
  deriving DecidableEq, Repr

/-- The success message of `run_script`. -/
def successMsg : List Char := "Script executed successfully".toList

/-- The nonzero-exit message of `run_script`. -/
def failureMsg : List Char := "Script execution failed".toList

/-- Embedding of the post-spawn phase of `run_script`:
`asyncio.wait_for(process.communicate(), timeout)` delivers the process's
output iff the process finishes within `timeout` seconds; on expiry the
process is killed (second component `true`) and the 408 rejection carries no
output; on completion the response carries the exit code and both streams
whether or not the exit code is zero. -/
def run_script (timeout : Nat) (r : ScriptRun) : RunOutcome × Bool :=
  if r.finish ≤ timeout then
    (.done (if r.rc = 0 then successMsg else failureMsg) r.rc r.out r.err, false)
  else
    (.timedOut timeout, true)

/-- Outcome of `install_requirements`. -/
inductive InstallResult
  | notFound
  | venvMissing
  | pipMissing
  | failed (stderr : List Char)
  | ok (out : List Char)
  deriving DecidableEq, Repr

/-- Embedding of `install_requirements`, returning the final content of the
`requirements.txt` manifest beside the script together with the HTTP-level
result.  Mirrors the source order: script-existence check, venv check, then
the manifest is written (`"\n".join(requirements)`), then the pip
executable check, then pip runs and a nonzero return code is reported as a
500 carrying pip's stderr — nothing restores the manifest on that path. -/
def install_requirements (scriptExists venvExists pipExists : Bool)
    (requirements : List (List Char)) (manifest0 : List Char)
    (pipRc : Int) (pipOut pipErr : List Char) : List Char × InstallResult :=
  if !scriptExists then (manifest0, .notFound)
  else if !venvExists then (manifest0, .venvMissing)
  else
    let manifest1 := joinSep '\n' requirements
    if !pipExists then (manifest1, .pipMissing)
    else if pipRc ≠ 0 then (manifest1, .failed pipErr)
    else (manifest1, .ok pipOut)

end ControlPanel

namespace ControlPanel

/-! ### Helper lemmas about the string-primitive models -/

/-- Every list is a prefix of itself. -/
theorem isPrefixList_self (l : List Char) : isPrefixList l l = true := by
  induction l with
  | nil => rfl
  | cons c rest ih => simp [isPrefixList, ih]

/-- `firstPosAux` finds a pattern standing at position `0`. -/
theorem firstPosAux_self (pat : List Char) : firstPosAux pat pat = some 0 := by
  cases pat with
  | nil => rfl
  | cons c rest => simp [firstPosAux, isPrefixList_self]

/-- A pattern standing at the end of a string is found by `containsSub`. -/
theorem containsSub_append_self (pat x : List Char) :
    containsSub pat (x ++ pat) = true := by
  induction x with
  | nil => simp [containsSub, firstPosAux_self]
  | cons c x' ih =>
    rw [containsSub, List.cons_append, firstPosAux]
    split
    · rfl
    · cases hfp : firstPosAux pat (x' ++ pat) with
      | none => rw [containsSub, hfp] at ih; simp at ih
      | some k => rfl

/-- If `containsSub` fails, the first-occurrence search returns `none`. -/
theorem firstPosAux_eq_none (pat l : List Char)
    (h : containsSub pat l = false) : firstPosAux pat l = none := by
  cases hfp : firstPosAux pat l with
  | none => rfl
  | some k => rw [containsSub, hfp] at h; simp at h

/-- One-step equation of `splitLines` at a newline. -/
theorem splitLines_cons_nl (rest : List Char) :
    splitLines ('\n' :: rest) = [] :: splitLines rest := by
  rw [splitLines]
  simp

/-- One-step equation of `splitLines` when the head is not a newline and
the rest splits to nothing. -/
theorem splitLines_cons_of_nil (c : Char) (rest : List Char)
    (hc : (c == '\n') = false) (hsp : splitLines rest = []) :
    splitLines (c :: rest) = [[c]] := by
  rw [splitLines, hsp]
  simp [hc]

/-- One-step equation of `splitLines` when the head is not a newline and
the rest splits to at least one line. -/
theorem splitLines_cons_of_cons (c : Char) (rest m : List Char)
    (ms : List (List Char)) (hc : (c == '\n') = false)
    (hsp : splitLines rest = m :: ms) :
    splitLines (c :: rest) = (c :: m) :: ms := by
  rw [splitLines, hsp]
  simp [hc]

/-- Lines produced by `splitLines` contain no newline character. -/
theorem splitLines_no_newline :
    ∀ (s : List Char), ∀ l ∈ splitLines s, '\n' ∉ l := by
  intro s
  induction s with
  | nil => intro l hl; simp [splitLines] at hl
  | cons c rest ih =>
    intro l hl
    by_cases hc : c = '\n'
    · subst hc
      rw [splitLines_cons_nl] at hl
      rcases List.mem_cons.mp hl with h | h
      · subst h; simp
      · exact ih l h
    · cases hsp : splitLines rest with
      | nil =>
        rw [splitLines_cons_of_nil c rest (by simp [hc]) hsp] at hl
        have hl' : l = [c] := by simpa using hl
        subst hl'
        intro hmem
        have : '\n' = c := by simpa using hmem
        exact hc this.symm
      | cons m ms =>
        rw [splitLines_cons_of_cons c rest m ms (by simp [hc]) hsp] at hl
        rcases List.mem_cons.mp hl with h | h
        · subst h
          intro hmem
          rcases List.mem_cons.mp hmem with h' | h'
          · exact hc h'.symm
          · exact ih m (hsp ▸ List.mem_cons_self m ms) h'
        · exact ih l (hsp ▸ List.mem_cons_of_mem m h)

/-- Splitting a text that starts with a newline-free line followed by a
newline peels off that line. -/
theorem splitLines_append (l z : List Char) (h : '\n' ∉ l) :
    splitLines (l ++ '\n' :: z) = l :: splitLines z := by
  induction l with
  | nil => exact splitLines_cons_nl z
  | cons c l' ih =>
    have hc : ¬ c = '\n' := fun hc => h (hc ▸ List.mem_cons_self c l')
    have ih' := ih (fun hm => h (List.mem_cons_of_mem c hm))
    exact splitLines_cons_of_cons c _ l' (splitLines z) (by simp [hc]) ih'

/-- Splitting a nonempty newline-free text yields that text as its only
line. -/
theorem splitLines_single (l : List Char) (hne : l ≠ []) (h : '\n' ∉ l) :
    splitLines l = [l] := by
  induction l with
  | nil => exact absurd rfl hne
  | cons c l' ih =>
    have hc : ¬ c = '\n' := fun hc => h (hc ▸ List.mem_cons_self c l')
    have h' : '\n' ∉ l' := fun hm => h (List.mem_cons_of_mem c hm)
    by_cases hl' : l' = []
    · subst hl'
      exact splitLines_cons_of_nil c [] (by simp [hc]) rfl
    · have hsp : splitLines l' = [l'] := ih hl' h'
      exact splitLines_cons_of_cons c l' l' [] (by simp [hc]) hsp

/-- `joinSep` on a list with at least two elements. -/
theorem joinSep_cons₂ (sep : Char) (a b : List Char) (rest : List (List Char)) :
    joinSep sep (a :: b :: rest) = a ++ sep :: joinSep sep (b :: rest) := rfl

/-- `splitLines` undoes `joinSep '\n'` on newline-free lines whose last line
is nonempty. -/
theorem splitLines_joinSep (ls : List (List Char))
    (h : ∀ l ∈ ls, '\n' ∉ l) (hlast : ls.getLast? ≠ some []) :
    splitLines (joinSep '\n' ls) = ls := by
  induction ls with
  | nil => rfl
  | cons l ls' ih =>
    cases ls' with
    | nil =>
      have hne : l ≠ [] := by
        intro hl; exact hlast (by simp [hl])
      simp only [joinSep]
      exact splitLines_single l hne (h l (List.mem_cons_self l []))
    | cons m ms =>
      rw [joinSep_cons₂]
      rw [splitLines_append l _ (h l (List.mem_cons_self l _))]
      congr 1
      exact ih (fun x hx => h x (List.mem_cons_of_mem l hx))
        (by rwa [List.getLast?_cons_cons] at hlast)

/-- `splitLines` applied to the text `schedule_script` installs: the kept
lines followed by the new entry (whose trailing newline terminates it). -/
theorem splitLines_join_entry (ls : List (List Char)) (body : List Char)
    (h : ∀ l ∈ ls, '\n' ∉ l) (hb : '\n' ∉ body) :
    splitLines (joinSep '\n' (ls ++ [body ++ ['\n']])) = ls ++ [body] := by
  induction ls with
  | nil =>
    simp only [List.nil_append, joinSep]
    have : body ++ ['\n'] = body ++ '\n' :: [] := rfl
    rw [this, splitLines_append body [] hb]
    rfl
  | cons l ls' ih =>
    have hcons : ls' ++ [body ++ ['\n']] ≠ [] := by simp
    cases hsplit : ls' ++ [body ++ ['\n']] with
    | nil => exact absurd hsplit hcons
    | cons m ms =>
      rw [List.cons_append, hsplit, joinSep_cons₂, ← hsplit]
      rw [splitLines_append l _ (h l (List.mem_cons_self l _))]
      rw [ih (fun x hx => h x (List.mem_cons_of_mem l hx))]
      rfl

/-! ### Helper lemmas about `pySplitSep` and session ids -/

/-- One-step equation of `pySplitSep` at the separator. -/
theorem pySplitSep_cons_sep (sep : Char) (rest : List Char) :
    pySplitSep sep (sep :: rest) = [] :: pySplitSep sep rest := by
  rw [pySplitSep]
  simp

/-- One-step equation of `pySplitSep` at a non-separator head. -/
theorem pySplitSep_cons_of (sep c : Char) (rest w : List Char)
    (ws : List (List Char)) (hc : (c == sep) = false)
    (hsp : pySplitSep sep rest = w :: ws) :
    pySplitSep sep (c :: rest) = (c :: w) :: ws := by
  rw [pySplitSep, hsp]
  simp [hc]

/-- `pySplitSep` never returns the empty list (mirroring the Python fact
that `s.split(sep)` is never empty, so indexing `[0]` cannot raise). -/
theorem pySplitSep_ne_nil (sep : Char) (l : List Char) :
    pySplitSep sep l ≠ [] := by
  induction l with
  | nil => simp [pySplitSep]
  | cons c rest ih =>
    by_cases h : (c == sep) = true
    · have hc := eq_of_beq h
      subst hc
      rw [pySplitSep_cons_sep]
      simp
    · cases hsp : pySplitSep sep rest with
      | nil => exact absurd hsp ih
      | cons w ws =>
        rw [pySplitSep_cons_of sep c rest w ws (by simpa using h) hsp]
        simp

/-- The first field of `pySplitSep` is the run of characters before the
first separator (the whole string if the separator never occurs). -/
theorem pySplitSep_head (sep : Char) (l : List Char) :
    (pySplitSep sep l).head? =
      some (l.takeWhile (fun c => !(c == sep))) := by
  induction l with
  | nil => rfl
  | cons c rest ih =>
    by_cases h : (c == sep) = true
    · have hc := eq_of_beq h
      subst hc
      rw [pySplitSep_cons_sep]
      simp [List.takeWhile_cons]
    · cases hsp : pySplitSep sep rest with
      | nil => exact absurd hsp (pySplitSep_ne_nil sep rest)
      | cons w ws =>
        rw [pySplitSep_cons_of sep c rest w ws (by simpa using h) hsp]
        rw [hsp] at ih
        have hw : w = rest.takeWhile (fun c => !(c == sep)) := by
          simpa using ih
        simp [List.takeWhile_cons, h, hw]

/-- Prefix comparison of `requester_` against `owner_nonce` decides owner
equality, provided neither name contains an underscore. -/
theorem isPrefixList_underscore_iff (req owner nonce : List Char)
    (hr : '_' ∉ req) (ho : '_' ∉ owner) :
    isPrefixList (req ++ ['_']) (owner ++ '_' :: nonce) = true ↔
      req = owner := by
  induction req generalizing owner with
  | nil =>
    cases owner with
    | nil => simp [isPrefixList]
    | cons b o' =>
      have hb : ¬ ('_' = b) := fun h => ho (h ▸ List.mem_cons_self b o')
      simp [isPrefixList, hb]
  | cons a r' ih =>
    have ha : ¬ (a = '_') := fun h => hr (h ▸ List.mem_cons_self a r')
    have hr' : '_' ∉ r' := fun hm => hr (List.mem_cons_of_mem a hm)
    cases owner with
    | nil =>
      simp [isPrefixList, ha]
    | cons b o' =>
      have ho' : '_' ∉ o' := fun hm => ho (List.mem_cons_of_mem b hm)
      by_cases hab : a = b
      · subst hab
        have hstep : isPrefixList ((a :: r') ++ ['_']) ((a :: o') ++ '_' :: nonce)
            = isPrefixList (r' ++ ['_']) (o' ++ '_' :: nonce) := by
          simp [List.cons_append, isPrefixList]
        rw [hstep, ih o' hr' ho']
        simp
      · simp [isPrefixList, hab]

/-! ### Helper lemmas about the crontab surgery -/

/-- The marker, written out as a character list. -/
theorem markerChars_eq (n : List Char) :
    markerChars n = '#' :: ' ' :: (n ++ markerTail) := rfl

/-- The generated entry line decomposed so that the marker stands at its
end. -/
theorem entryBody_eq (n e w : List Char) :
    entryBody n e w = (e ++ ' ' :: w ++ [' ']) ++ markerChars n := by
  simp [entryBody, List.append_assoc]

/-- The marker contains no newline when the name does not. -/
theorem no_newline_markerChars (n : List Char) (hn : '\n' ∉ n) :
    '\n' ∉ markerChars n := by
  rw [markerChars_eq]
  have ht : '\n' ∉ markerTail := by decide
  simp only [List.mem_cons, List.mem_append]
  push_neg
  exact ⟨by decide, by decide, hn, ht⟩

/-- The generated entry line contains no newline when its three fields do
not. -/
theorem no_newline_entryBody (n e w : List Char)
    (hn : '\n' ∉ n) (he : '\n' ∉ e) (hw : '\n' ∉ w) :
    '\n' ∉ entryBody n e w := by
  have hm := no_newline_markerChars n hn
  rw [entryBody_eq]
  intro hmem
  rcases List.mem_append.mp hmem with h | h
  · rcases List.mem_append.mp h with h1 | h2
    · rcases List.mem_append.mp h1 with h3 | h4
      · exact he h3
      · rcases List.mem_cons.mp h4 with h5 | h5
        · exact absurd h5 (by decide)
        · exact hw h5
    · exact absurd h2 (by decide)
  · exact hm h

/-- The generated entry line contains its own marker. -/
theorem containsSub_entryBody (n e w : List Char) :
    containsSub (markerChars n) (entryBody n e w) = true := by
  rw [entryBody_eq]
  exact containsSub_append_self _ _

/-- The lines of the crontab installed by `schedule_script`: the kept lines
of the old table followed by the newly generated entry. -/
theorem splitLines_schedule (c n e w : List Char)
    (hn : '\n' ∉ n) (he : '\n' ∉ e) (hw : '\n' ∉ w) :
    splitLines (schedule_script c n e w) =
      (splitLines c).filter (fun l => !containsSub (markerChars n) l) ++
        [entryBody n e w] := by
  rw [schedule_script]
  apply splitLines_join_entry
  · intro l hl
    exact splitLines_no_newline c l (List.mem_of_mem_filter hl)
  · exact no_newline_entryBody n e w hn he hw

/-- Filtering by the complement of a predicate is idempotent. -/
theorem filter_not_idem (p : List Char → Bool) (l : List (List Char)) :
    (l.filter (fun x => !p x)).filter (fun x => !p x) =
      l.filter (fun x => !p x) := by
  rw [List.filter_filter]
  simp

/-- Filtering by a predicate after filtering by its complement yields
nothing. -/
theorem filter_after_not (p : List Char → Bool) (l : List (List Char)) :
    (l.filter (fun x => !p x)).filter (fun x => p x) = [] := by
  rw [List.filter_filter]
  simp

/-- After any single `schedule_script` call with newline-free fields,
exactly one line of the installed table carries the operated name's marker,
namely the newly generated entry. -/
theorem upsert_marked_lines (c n e w : List Char)
    (hn : '\n' ∉ n) (he : '\n' ∉ e) (hw : '\n' ∉ w) :
    (splitLines (schedule_script c n e w)).filter
      (fun l => containsSub (markerChars n) l) = [entryBody n e w] := by
  rw [splitLines_schedule c n e w hn he hw, List.filter_append,
    filter_after_not]
  simp [containsSub_entryBody]

/-! ### Helper lemmas about the listing parse -/

/-- One-step equation of `pyWordsAux` at a whitespace character. -/
theorem pyWordsAux_cons_space (c : Char) (rest acc : List Char)
    (hc : isSpaceChar c = true) :
    pyWordsAux (c :: rest) acc =
      if acc.isEmpty then pyWordsAux rest []
      else acc.reverse :: pyWordsAux rest [] := by
  rw [pyWordsAux]
  simp [hc]

/-- One-step equation of `pyWordsAux` at a non-whitespace character. -/
theorem pyWordsAux_cons_of (c : Char) (rest acc : List Char)
    (hc : isSpaceChar c = false) :
    pyWordsAux (c :: rest) acc = pyWordsAux rest (c :: acc) := by
  rw [pyWordsAux]
  simp [hc]

/-- Scanning a whitespace-free word followed by a space emits the word. -/
theorem pyWordsAux_word_space (f : List Char) (rest acc : List Char)
    (hf : ∀ ch ∈ f, isSpaceChar ch = false)
    (hne : acc.reverse ++ f ≠ []) :
    pyWordsAux (f ++ ' ' :: rest) acc =
      (acc.reverse ++ f) :: pyWordsAux rest [] := by
  induction f generalizing acc with
  | nil =>
    have hacc : acc.isEmpty = false := by
      cases acc with
      | nil => simp at hne
      | cons a as => simp
    rw [List.nil_append, pyWordsAux_cons_space ' ' rest acc (by decide), hacc]
    simp
  | cons ch f' ih =>
    have hch : isSpaceChar ch = false := hf ch (List.mem_cons_self _ _)
    have hf' : ∀ c ∈ f', isSpaceChar c = false :=
      fun c hc => hf c (List.mem_cons_of_mem _ hc)
    rw [List.cons_append, pyWordsAux_cons_of ch _ acc hch,
      ih (ch :: acc) hf' (by simp)]
    congr 1
    simp

/-- `pySplit` of a single-space-joined field list followed by a space and
arbitrary text: the fields come off first. -/
theorem pySplit_fields (fields : List (List Char)) (rest : List Char)
    (hne : fields ≠ [])
    (hf : ∀ f ∈ fields, f ≠ [] ∧ ∀ ch ∈ f, isSpaceChar ch = false) :
    pySplit (joinSep ' ' fields ++ ' ' :: rest) = fields ++ pySplit rest := by
  induction fields with
  | nil => exact absurd rfl hne
  | cons f fs ih =>
    rcases hf f (List.mem_cons_self f fs) with ⟨hfne, hfc⟩
    cases fs with
    | nil =>
      show pyWordsAux (f ++ ' ' :: rest) [] = [f] ++ pySplit rest
      rw [pyWordsAux_word_space f rest [] hfc (by simpa using hfne)]
      rfl
    | cons g gs =>
      rw [joinSep_cons₂, List.append_assoc, List.cons_append]
      show pyWordsAux (f ++ ' ' :: (joinSep ' ' (g :: gs) ++ ' ' :: rest)) []
        = (f :: g :: gs) ++ pySplit rest
      rw [pyWordsAux_word_space f _ [] hfc (by simpa using hfne)]
      have ihx := ih (by simp)
        (fun x hx => hf x (List.mem_cons_of_mem f hx))
      rw [pySplit] at ihx
      rw [ihx]
      rfl

/-- The first `"# "` in a text whose prefix is `#`-free stands where that
prefix ends. -/
theorem firstPosAux_sharp (x z : List Char) (hx : '#' ∉ x) :
    firstPosAux ['#', ' '] (x ++ '#' :: ' ' :: z) = some x.length := by
  induction x with
  | nil =>
    have hp : isPrefixList ['#', ' '] ('#' :: ' ' :: z) = true := by
      simp [isPrefixList]
    rw [List.nil_append, firstPosAux, if_pos hp]
    rfl
  | cons c x' ih =>
    have hc : ¬ (c = '#') := fun h => hx (h ▸ List.mem_cons_self c x')
    have hx' : '#' ∉ x' := fun hm => hx (List.mem_cons_of_mem c hm)
    rw [List.cons_append, firstPosAux, if_neg, ih hx']
    · rfl
    · intro hpre
      rw [isPrefixList] at hpre
      simp at hpre
      exact hc hpre.1.symm

/-- `lastPosAux` over a longer text, one step. -/
theorem lastPosAux_step (pat : List Char) (c : Char) (rest : List Char)
    (k : Nat) (h : lastPosAux pat rest = some k) :
    lastPosAux pat (c :: rest) = some (k + 1) := by
  rw [lastPosAux, h]

/-- The last occurrence of the marker tail in a text that ends with it is
at its final position (the tail cannot occur inside a proper suffix of
itself). -/
theorem lastPosAux_markerTail (x : List Char) :
    lastPosAux markerTail (x ++ markerTail) = some x.length := by
  induction x with
  | nil => decide
  | cons c x' ih =>
    rw [List.cons_append, lastPosAux_step markerTail c _ x'.length ih]
    simp

/-- `searchMarker` on a generated entry line captures exactly the name,
provided the cron expression and wrapper path contain no `#`. -/
theorem searchMarker_entryBody (n e w : List Char)
    (hse : '#' ∉ e) (hsw : '#' ∉ w) :
    searchMarker (entryBody n e w) = some n := by
  have hline1 : entryBody n e w =
      ((e ++ ' ' :: w) ++ [' ']) ++ '#' :: ' ' :: (n ++ markerTail) := by
    rw [entryBody_eq, markerChars_eq]
  have hline2 : entryBody n e w =
      (((e ++ ' ' :: w) ++ [' ']) ++ '#' :: ' ' :: n) ++ markerTail := by
    rw [hline1]
    simp [List.append_assoc]
  have hline3 : entryBody n e w =
      (((e ++ ' ' :: w) ++ [' ']) ++ ['#', ' ']) ++ (n ++ markerTail) := by
    rw [hline1]
    simp [List.append_assoc]
  have hx : '#' ∉ (e ++ ' ' :: w) ++ [' '] := by
    intro hm
    rcases List.mem_append.mp hm with h | h
    · rcases List.mem_append.mp h with h1 | h1
      · exact hse h1
      · rcases List.mem_cons.mp h1 with h2 | h2
        · exact absurd h2 (by decide)
        · exact hsw h2
    · exact absurd h (by decide)
  have hfirst : firstPosAux "# ".toList (entryBody n e w) =
      some ((e ++ ' ' :: w) ++ [' ']).length := by
    rw [show "# ".toList = ['#', ' '] from rfl, hline1]
    exact firstPosAux_sharp _ _ hx
  have hlast : lastPosAux markerTail (entryBody n e w) =
      some ((((e ++ ' ' :: w) ++ [' ']) ++ '#' :: ' ' :: n)).length := by
    rw [hline2]
    exact lastPosAux_markerTail _
  have hlen2 : ((((e ++ ' ' :: w) ++ [' ']) ++ '#' :: ' ' :: n)).length =
      ((e ++ ' ' :: w) ++ [' ']).length + 2 + n.length := by
    simp only [List.length_append, List.length_cons]
    omega
  have hdl : (((e ++ ' ' :: w) ++ [' ']) ++ ['#', ' ']).length =
      ((e ++ ' ' :: w) ++ [' ']).length + 2 := by
    simp only [List.length_append, List.length_cons, List.length_nil]
  simp only [searchMarker, hfirst, hlast]
  rw [if_pos (by rw [hlen2]; omega)]
  congr 1
  rw [hlen2]
  rw [show ((e ++ ' ' :: w) ++ [' ']).length + 2 + n.length -
      (((e ++ ' ' :: w) ++ [' ']).length + 2) = n.length by omega]
  rw [hline3, ← hdl, List.drop_left, List.take_left]

/-- The cron-expression reconstruction of the listing recovers the cron
expression of a generated entry line when that expression is a
single-space join of five nonempty whitespace-free fields. -/
theorem cron_extract_entryBody (n e w : List Char)
    (fields : List (List Char)) (h5 : fields.length = 5)
    (hf : ∀ f ∈ fields, f ≠ [] ∧ ∀ ch ∈ f, isSpaceChar ch = false)
    (hejoin : e = joinSep ' ' fields) :
    joinSep ' ' ((pySplit (entryBody n e w)).take 5) = e := by
  have hne : fields ≠ [] := by
    intro h
    rw [h] at h5
    simp at h5
  have hsplit : entryBody n e w =
      joinSep ' ' fields ++ ' ' :: (w ++ ' ' :: markerChars n) := by
    rw [entryBody, hejoin]
    simp [List.append_assoc]
  rw [hsplit, pySplit_fields fields _ hne hf, ← h5, List.take_left, ← hejoin]

/-- When a line does not contain `"python "`, the listing's script-path
extraction falls back to `"Unknown"`. -/
theorem scriptPathOf_no_python (line : List Char)
    (h : containsSub "python ".toList line = false) :
    scriptPathOf line = unknownChars := by
  rw [scriptPathOf, firstPosAux_eq_none _ _ h]

/-- Full parse of a generated entry line: the name and the cron expression
round-trip; the script path comes back as `"Unknown"` because the line
carries the wrapper path, not a `python <path>.py` command. -/
theorem parse_entryBody (n e w : List Char) (fields : List (List Char))
    (h5 : fields.length = 5)
    (hf : ∀ f ∈ fields, f ≠ [] ∧ ∀ ch ∈ f, isSpaceChar ch = false)
    (hejoin : e = joinSep ' ' fields)
    (hse : '#' ∉ e) (hsw : '#' ∉ w)
    (hpy : containsSub "python ".toList (entryBody n e w) = false) :
    parseCronLine (entryBody n e w) = some ⟨n, e, unknownChars⟩ := by
  rw [parseCronLine, searchMarker_entryBody n e w hse hsw]
  show some (SchedEntry.mk n (joinSep ' ' ((pySplit (entryBody n e w)).take 5))
    (scriptPathOf (entryBody n e w))) = some ⟨n, e, unknownChars⟩
  rw [cron_extract_entryBody n e w fields h5 hf hejoin,
    scriptPathOf_no_python _ hpy]

end ControlPanel

namespace ControlPanel

/-- C1: the sandbox check accepts the sibling directory `/home/alice-evil`
under tenant root `/home/alice`, because it compares by naive string prefix;
the segment-wise check the spec describes rejects it.  The code therefore
does not satisfy the claimed rejection property. -/
theorem C1_sibling_root_accepted :
    is_safe_path "/home/alice-evil".toList "/home/alice".toList = true ∧
    is_safe_path_spec "/home/alice-evil".toList "/home/alice".toList = false := by
  constructor <;> decide

/-- C2: `run_script` races completion against the timeout: a script that
does not finish within the timeout is killed and reported as a 408 timeout
with no output, and a script that finishes within the timeout yields a
response carrying its true exit code and both captured streams, whatever
the exit code. -/
theorem C2_run_script_timeout_race (t : Nat) (r : ScriptRun) :
    (t < r.finish → run_script t r = (.timedOut t, true)) ∧
    (r.finish ≤ t →
      ∃ m, run_script t r = (.done m r.rc r.out r.err, false)) := by
  constructor
  · intro h
    rw [run_script, if_neg (by omega)]
  · intro h
    exact ⟨_, by rw [run_script, if_pos h]⟩

/-- Witness for C2 at a script that takes 5 seconds: it times out under a
1-second bound and completes (with nonzero exit code 2 and its output
intact) under a 9-second bound. -/
theorem C2_witness :
    run_script 1 ⟨5, 2, "done".toList, "oops".toList⟩ = (.timedOut 1, true) ∧
    ∃ m, run_script 9 ⟨5, 2, "done".toList, "oops".toList⟩ =
      (.done m 2 "done".toList "oops".toList, false) :=
  ⟨(C2_run_script_timeout_race 1 ⟨5, 2, "done".toList, "oops".toList⟩).1
      (by decide),
    (C2_run_script_timeout_race 9 ⟨5, 2, "done".toList, "oops".toList⟩).2
      (by decide)⟩

/-- C3 (counterexample): the literal invariant "at most one line carries
the marker for a given name" fails, because marker matching is substring
containment: starting from an empty table, upserting name `a` and then name
`b # a` leaves two lines that both contain the marker of `a` (the second
entry's marker text embeds the first's). -/
theorem C3_marker_collision :
    countMarked "a".toList
      (schedule_script
        (schedule_script [] "a".toList "* * * * *".toList "/w".toList)
        "b # a".toList "* * * * *".toList "/w".toList) = 2 := by
  decide

/-- C3 (amended): for newline-free fields, after two `schedule_script`
calls with the same name, exactly one line of the installed table carries
that name's marker, and it is the entry generated from the second cron
expression. -/
theorem C3_upsert_idempotency_key (c n e1 w1 e2 w2 : List Char)
    (hn : '\n' ∉ n) (he : '\n' ∉ e2) (hw : '\n' ∉ w2) :
    (splitLines (schedule_script (schedule_script c n e1 w1) n e2 w2)).filter
        (fun l => containsSub (markerChars n) l) = [entryBody n e2 w2] ∧
    countMarked n (schedule_script (schedule_script c n e1 w1) n e2 w2) = 1 := by
  have key := upsert_marked_lines (schedule_script c n e1 w1) n e2 w2 hn he hw
  exact ⟨key, by rw [countMarked, key]; rfl⟩

/-- Witness for C3 at a concrete double upsert of the name `job`. -/
theorem C3_witness :
    (splitLines (schedule_script
        (schedule_script "x\n".toList "job".toList "1 2 3 4 5".toList
          "/s_wrapper.sh".toList)
        "job".toList "5 4 3 2 1".toList "/s_wrapper.sh".toList)).filter
      (fun l => containsSub (markerChars "job".toList) l) =
        [entryBody "job".toList "5 4 3 2 1".toList "/s_wrapper.sh".toList] ∧
    countMarked "job".toList (schedule_script
      (schedule_script "x\n".toList "job".toList "1 2 3 4 5".toList
        "/s_wrapper.sh".toList)
      "job".toList "5 4 3 2 1".toList "/s_wrapper.sh".toList) = 1 :=
  C3_upsert_idempotency_key "x\n".toList "job".toList "1 2 3 4 5".toList
    "/s_wrapper.sh".toList "5 4 3 2 1".toList "/s_wrapper.sh".toList
    (by decide) (by decide) (by decide)

/-- C4: `unschedule_script` on a name none of whose marker-tagged lines
exist answers 404 and leaves the table byte-for-byte unchanged (the install
step is never reached). -/
theorem C4_remove_missing_not_found (c n : List Char)
    (h : ∀ l ∈ splitLines c, containsSub (markerChars n) l = false) :
    unschedule_script c n = .notFound ∧ unschedule_effect c n = c := by
  have hany : (splitLines c).any (fun l => containsSub (markerChars n) l)
      = false := by
    rw [List.any_eq_false]
    intro x hx
    simp [h x hx]
  constructor
  · rw [unschedule_script, if_neg (by simp [hany])]
  · rw [unschedule_effect, unschedule_script, if_neg (by simp [hany])]

/-- Witness for C4: removing the unscheduled name `a` from the one-line
table `"x\n"`. -/
theorem C4_witness :
    unschedule_script "x\n".toList "a".toList = .notFound ∧
    unschedule_effect "x\n".toList "a".toList = "x\n".toList :=
  C4_remove_missing_not_found "x\n".toList "a".toList (by decide)

/-- C5 (counterexample): the literal frame claim fails on a table whose
last unmarked line is empty: removing `a` from `"\n# a - managed by
control-panel\n"` installs the empty table, and the old table's empty
first line — a line without the marker — is not reproduced. -/
theorem C5_trailing_empty_line_lost :
    ([] : List Char) ∈
      splitLines "\n# a - managed by control-panel\n".toList ∧
    containsSub (markerChars "a".toList) [] = false ∧
    unschedule_script "\n# a - managed by control-panel\n".toList
      "a".toList = .ok [] ∧
    splitLines ([] : List Char) = [] := by
  refine ⟨by decide, by decide, by decide, rfl⟩

/-- C5 (amended): a `schedule_script` call with newline-free fields
preserves, in order and verbatim, exactly the lines that do not contain the
operated name's marker; a successful `unschedule_script` installs exactly
those lines, provided the kept lines do not end with an empty line (a
trailing empty kept line is dropped by the `join` that rebuilds the
table). -/
theorem C5_unmarked_lines_preserved (c n e w t : List Char)
    (hn : '\n' ∉ n) (he : '\n' ∉ e) (hw : '\n' ∉ w)
    (hlast : ((splitLines c).filter
      (fun l => !containsSub (markerChars n) l)).getLast? ≠ some []) :
    (splitLines (schedule_script c n e w)).filter
        (fun l => !containsSub (markerChars n) l) =
      (splitLines c).filter (fun l => !containsSub (markerChars n) l) ∧
    (unschedule_script c n = .ok t →
      splitLines t =
        (splitLines c).filter (fun l => !containsSub (markerChars n) l)) := by
  constructor
  · rw [splitLines_schedule c n e w hn he hw, List.filter_append,
      filter_not_idem]
    simp [containsSub_entryBody]
  · intro hok
    rw [unschedule_script] at hok
    by_cases hany :
        (splitLines c).any (fun l => containsSub (markerChars n) l) = true
    · rw [if_pos hany] at hok
      cases hok
      apply splitLines_joinSep
      · intro l hl
        exact splitLines_no_newline c l (List.mem_of_mem_filter hl)
      · exact hlast
    · rw [if_neg hany] at hok
      exact absurd hok (by simp)

/-- Witness for C5: upserting and removing `job` over a table holding one
foreign line `other` and one managed line for `job`. -/
theorem C5_witness :
    (splitLines (schedule_script
        "other\n# job - managed by control-panel\n".toList "job".toList
        "1 2 3 4 5".toList "/s_wrapper.sh".toList)).filter
      (fun l => !containsSub (markerChars "job".toList) l) =
        (splitLines "other\n# job - managed by control-panel\n".toList).filter
          (fun l => !containsSub (markerChars "job".toList) l) ∧
    splitLines "other".toList =
      (splitLines "other\n# job - managed by control-panel\n".toList).filter
        (fun l => !containsSub (markerChars "job".toList) l) :=
  ⟨(C5_unmarked_lines_preserved
      "other\n# job - managed by control-panel\n".toList "job".toList
      "1 2 3 4 5".toList "/s_wrapper.sh".toList "other".toList
      (by decide) (by decide) (by decide) (by decide)).1,
    (C5_unmarked_lines_preserved
      "other\n# job - managed by control-panel\n".toList "job".toList
      "1 2 3 4 5".toList "/s_wrapper.sh".toList "other".toList
      (by decide) (by decide) (by decide) (by decide)).2 (by decide)⟩

/-- C8 (counterexample): a frame that begins with the resize prefix but
does not split on `:` into exactly three parts — here `"__RESIZE:80"` — is
NOT consumed: the 3-way unpack raises, the exception is swallowed, and the
frame's raw bytes are written to the shell's stdin. -/
theorem C8_malformed_resize_written :
    isPrefixList resizeChars "__RESIZE:80".toList = true ∧
    write_to_process "__RESIZE:80".toList = some "__RESIZE:80".toList := by
  constructor <;> decide

/-- C8 (amended): a frame beginning with the resize prefix is consumed as a
no-op exactly when it splits on `:` into three parts; any other
prefix-bearing frame, and every frame without the prefix, is written to the
process's input stream unmodified. -/
theorem C8_resize_frame_handling (msg : List Char) :
    (isPrefixList resizeChars msg = true →
      ((pySplitSep ':' msg).length = 3 → write_to_process msg = none) ∧
      ((pySplitSep ':' msg).length ≠ 3 → write_to_process msg = some msg)) ∧
    (isPrefixList resizeChars msg = false →
      write_to_process msg = some msg) := by
  constructor
  · intro hpre
    constructor
    · intro h3
      rw [write_to_process, if_pos hpre, if_pos h3]
    · intro h3
      rw [write_to_process, if_pos hpre, if_neg h3]
  · intro hpre
    rw [write_to_process, if_neg (by simp [hpre])]

/-- Witness for C8: a well-formed resize frame is consumed; an ordinary
command frame is written through unmodified. -/
theorem C8_witness :
    write_to_process "__RESIZE:80:24".toList = none ∧
    write_to_process "ls -la\n".toList = some "ls -la\n".toList :=
  ⟨((C8_resize_frame_handling "__RESIZE:80:24".toList).1 (by decide)).1
      (by decide),
    (C8_resize_frame_handling "ls -la\n".toList).2 (by decide)⟩

/-- C9: `install_requirements` writes the joined package list to the
`requirements.txt` manifest before invoking pip, so when pip exits nonzero
the call reports the failure (surfacing pip's stderr) while the manifest
already holds the new package list — the previous content `manifest0` is
not restored. -/
theorem C9_manifest_not_restored (requirements : List (List Char))
    (manifest0 : List Char) (pipRc : Int) (pipOut pipErr : List Char)
    (hrc : pipRc ≠ 0) :
    install_requirements true true true requirements manifest0 pipRc
      pipOut pipErr = (joinSep '\n' requirements, .failed pipErr) := by
  rw [install_requirements]
  simp [hrc]

/-- Witness for C9: a failed install over an old manifest `old` leaves the
new list `numpy\npandas` in the manifest. -/
theorem C9_witness :
    install_requirements true true true ["numpy".toList, "pandas".toList]
      "old".toList 1 [] "boom".toList =
      (joinSep '\n' ["numpy".toList, "pandas".toList], .failed "boom".toList) :=
  C9_manifest_not_restored ["numpy".toList, "pandas".toList] "old".toList 1
    [] "boom".toList (by decide)

/-- C7 (counterexample): with an unvalidated username containing an
underscore, an ordinary requester `a` is shown the session of the distinct
tenant `a_1`, because the non-admin filter is a `startswith` check on the
raw session id. -/
theorem C7_underscore_owner_leak :
    list_terminal_sessions [Sess.mk "a_1".toList "7".toList] "a".toList
        false = [sessId (Sess.mk "a_1".toList "7".toList)] ∧
    (Sess.mk "a_1".toList "7".toList).owner ≠ "a".toList := by
  constructor <;> decide

/-- C7 (amended): an admin requester is listed every registry entry; an
ordinary requester is listed exactly the entries whose owner equals them,
provided no involved username contains an underscore (session ids being
`owner ++ "_" ++ nonce`, the `startswith` filter then coincides with owner
equality). -/
theorem C7_session_listing (registry : List Sess) (requester : List Char) :
    list_terminal_sessions registry requester true = registry.map sessId ∧
    ((∀ s ∈ registry, '_' ∉ s.owner) → '_' ∉ requester →
      list_terminal_sessions registry requester false =
        (registry.filter (fun s => s.owner == requester)).map sessId) := by
  constructor
  · rfl
  · intro hreg hreq
    rw [list_terminal_sessions]
    rw [if_neg (by simp)]
    rw [List.filter_map]
    congr 1
    apply List.filter_congr
    intro s hs
    have h1 : isPrefixList (requester ++ ['_']) (sessId s) = true ↔
        (s.owner == requester) = true := by
      rw [sessId,
        isPrefixList_underscore_iff requester s.owner s.nonce hreq
          (hreg s hs),
        beq_iff_eq]
      exact eq_comm
    by_cases hA : isPrefixList (requester ++ ['_']) (sessId s) = true
    · rw [Function.comp_apply, hA, (h1.mp hA)]
    · have hB : ¬ (s.owner == requester) = true := fun hb => hA (h1.mpr hb)
      rw [Bool.not_eq_true] at hA hB
      rw [Function.comp_apply, hA, hB]

/-- Witness for C7 over a registry holding sessions of `alice` and `bob`. -/
theorem C7_witness :
    list_terminal_sessions
        [Sess.mk "alice".toList "1".toList, Sess.mk "bob".toList "2".toList]
        "alice".toList true =
      [Sess.mk "alice".toList "1".toList,
        Sess.mk "bob".toList "2".toList].map sessId ∧
    list_terminal_sessions
        [Sess.mk "alice".toList "1".toList, Sess.mk "bob".toList "2".toList]
        "alice".toList false =
      ([Sess.mk "alice".toList "1".toList,
        Sess.mk "bob".toList "2".toList].filter
          (fun s => s.owner == "alice".toList)).map sessId :=
  ⟨(C7_session_listing
      [Sess.mk "alice".toList "1".toList, Sess.mk "bob".toList "2".toList]
      "alice".toList).1,
    (C7_session_listing
      [Sess.mk "alice".toList "1".toList, Sess.mk "bob".toList "2".toList]
      "alice".toList).2 (by decide) (by decide)⟩

/-- C10: extracting the presumed owner of a session id never reaches the
400 "Invalid session ID format" branch: `session_id.split("_")[0]` always
yields the substring before the first underscore (the whole id when no
underscore occurs). -/
theorem C10_owner_extraction_total (session_id : List Char) :
    kill_session_owner session_id =
      some (session_id.takeWhile (fun c => !(c == '_'))) :=
  pySplitSep_head '_' session_id

/-- C6 (counterexample): scheduling `/home/alice/test.py` as `job` and then
listing yields a record whose name and cron expression round-trip but whose
`script_path` is the literal `"Unknown"`, not the script path: the
installed line carries the wrapper path `/home/alice/test_wrapper.sh` and
never matches the extraction pattern `python (.*\.py)`. -/
theorem C6_script_path_not_round_tripped :
    list_scheduled_scripts (schedule_script_for [] "job".toList
        "0 0 * * *".toList "/home/alice/test.py".toList) =
      [SchedEntry.mk "job".toList "0 0 * * *".toList unknownChars] ∧
    unknownChars ≠ "/home/alice/test.py".toList := by
  constructor <;> decide

/-- C6 (amended): an entry installed by `schedule_script` for script path
`S` with a sane name and a single-space five-field cron expression shows up
in the listing with its name and cron expression intact, but with
`script_path` reported as `"Unknown"` (the generated line embeds the
wrapper path, not a `python <path>.py` command); lines without a parseable
marker are skipped rather than failing the listing. -/
theorem C6_list_round_trip (c n e S : List Char) (fields : List (List Char))
    (h5 : fields.length = 5)
    (hf : ∀ f ∈ fields, f ≠ [] ∧ ∀ ch ∈ f, isSpaceChar ch = false)
    (hejoin : e = joinSep ' ' fields)
    (hn : '\n' ∉ n) (he : '\n' ∉ e) (hw : '\n' ∉ wrapper_path_of S)
    (hse : '#' ∉ e) (hsw : '#' ∉ wrapper_path_of S)
    (hpy : containsSub "python ".toList
      (entryBody n e (wrapper_path_of S)) = false)
    (hS : S ≠ unknownChars) :
    SchedEntry.mk n e unknownChars ∈
      list_scheduled_scripts (schedule_script_for c n e S) ∧
    unknownChars ≠ S := by
  constructor
  · rw [list_scheduled_scripts, schedule_script_for,
      splitLines_schedule c n e _ hn he hw]
    apply List.mem_filterMap.mpr
    refine ⟨entryBody n e (wrapper_path_of S), ?_, ?_⟩
    · exact List.mem_append_right _ (List.mem_cons_self _ _)
    · exact parse_entryBody n e _ fields h5 hf hejoin hse hsw hpy
  · exact fun h => hS h.symm

/-- Witness for C6: the schedule of `/home/alice/test.py` as `job` over a
table holding one foreign line. -/
theorem C6_witness :
    SchedEntry.mk "job".toList "0 0 * * *".toList unknownChars ∈
      list_scheduled_scripts (schedule_script_for "x\n".toList "job".toList
        "0 0 * * *".toList "/home/alice/test.py".toList) ∧
    unknownChars ≠ "/home/alice/test.py".toList :=
  C6_list_round_trip "x\n".toList "job".toList "0 0 * * *".toList
    "/home/alice/test.py".toList
    ["0".toList, "0".toList, "*".toList, "*".toList, "*".toList]
    (by decide) (by decide) (by decide) (by decide) (by decide) (by decide)
    (by decide) (by decide) (by decide) (by decide)

end ControlPanel
